import Mathlib

/-!
Shallow embedding of the indentation-sensitive lexer (`src/lexer.py`) of the
textmation repository, together with theorems settling the frozen claims
about it.

Conventions of the embedding:
* Python strings become `List Char`; `self.string[self.ptr]` becomes
  `List.get` guarded by the same bound checks the Python code performs
  (an unguarded Python indexing that can be out of range is modelled by an
  explicit `LexErr.indexError`).
* The mutable `Lexer` object becomes a `Lexer` structure threaded through
  every operation; raising becomes `Except LexErr`.
* Python `while` loops become fuel-indexed structural recursions; every
  call site supplies fuel that dominates the number of remaining input
  characters, so the `outOfFuel` escape is unreachable there (each loop
  iteration consumes at least one character).
* `str.isspace` / `str.isdigit` are modelled on the character set relevant
  to this lexer (ASCII plus the common Latin-1 whitespace); exotic Unicode
  category members accepted by Python are outside the modelled inputs.
* The indentation stack `self.indentations` (Python list, append/pop at the
  end, `[-1]` the top) is a `List (List Char)` with the TOP at the HEAD:
  Python `append` is `cons`, `pop` is `tail`, `[-1]` is `headI`.
-/

/-- Source position: `self.line` (starting at 1) and `self.character`
(column, starting at 0), as maintained by `Lexer._next`. -/
structure Pos where
  line : Nat
  character : Nat
deriving DecidableEq, Repr

/-- Token span: pair of begin and end positions, as in `Token.span`. -/
abbrev Span := Pos × Pos

/-- Token kinds, mirroring the Python `TokenType` enumeration. -/
inductive TokenType where
  | EndOfStream
  | Newline
  | Indent
  | Dedent
  | Comment
  | Identifier
  | Integer
  | String
  | Symbol
deriving DecidableEq, Repr

/-- Tokens, mirroring the Python `Token` class: kind, verbatim literal text
(`value`), and span. -/
structure Token where
  type : TokenType
  value : List Char
  span : Span
deriving DecidableEq, Repr

/-- Failure outcomes of the lexer.  `fail` is `Lexer._fail` (a `LexerError`
carrying the message and the span it formats); `unexpectedEOS` is the
`LexerError("Unexpected end of stream")` raised by `Lexer._next`;
`indexError` models Python indexing `self.string[self.ptr]` out of range;
`assertErr` models a failing `assert`; `outOfFuel` is the loop-fuel escape
of the embedding, unreachable at every call site used here. -/
inductive LexErr where
  | fail (msg : String) (span : Span)
  | unexpectedEOS
  | indexError
  | assertErr
  | outOfFuel
deriving DecidableEq, Repr

/-- Lexer state: the input (`self.string`), cursor (`self.ptr`), position
(`self.line`, `self.character`) and the indentation stack (top at head).
Python also stores `self.length`; it is recomputed as `string.length`. -/
structure Lexer where
  string : List Char
  ptr : Nat
  line : Nat
  character : Nat
  indentations : List (List Char)
deriving DecidableEq, Repr

/-- Construction `Lexer(string)`: cursor 0, position (1, 0), indentation
stack `[""]`. -/
def Lexer.init (s : String) : Lexer :=
  ⟨s.toList, 0, 1, 0, [[]]⟩

/-- Python `c in _horizontal_whitespace` with `_horizontal_whitespace = " \t"`. -/
def isHWS (c : Char) : Bool :=
  c == ' ' || c == '\t'

/-- Python `str.isspace` on the characters this lexer can meet: ASCII
whitespace controls plus the Latin-1 NEL and no-break space. -/
def pyIsSpace (c : Char) : Bool :=
  c == ' ' || c == '\t' || c == '\n' || c == '\r' || c == '\x0b' || c == '\x0c' ||
  c == '\x1c' || c == '\x1d' || c == '\x1e' || c == '\x1f' ||
  c == Char.ofNat 0x85 || c == Char.ofNat 0xa0

/-- Python `c in _identifier_start` with `_identifier_start` the ASCII
letters plus underscore and dollar. -/
def isIdentStart (c : Char) : Bool :=
  c.isAlpha || c == '_' || c == '$'

/-- Python `c in _identifier`: identifier-start characters plus decimal
digits. -/
def isIdentCont (c : Char) : Bool :=
  isIdentStart c || c.isDigit

/-- Python string slicing `s[a:b]` for `a ≤ b`. -/
def strSlice (s : List Char) (a b : Nat) : List Char :=
  (s.drop a).take (b - a)

/-- Cursor update of `Lexer._next` (the identity at the end of input):
consume the current character; a newline increments `line` and resets
`character` to 0, any other character increments `character`. -/
def Lexer.advance (l : Lexer) : Lexer :=
  if h : l.ptr < l.string.length then
    if l.string.get ⟨l.ptr, h⟩ = '\n' then
      { l with ptr := l.ptr + 1, line := l.line + 1, character := 0 }
    else
      { l with ptr := l.ptr + 1, character := l.character + 1 }
  else
    l

/-- Method `Lexer._next`: fail with "Unexpected end of stream" at the end of
input, otherwise consume and return the current character with the
`advance` cursor update applied. -/
def Lexer._next (l : Lexer) : Except LexErr (Char × Lexer) :=
  if h : l.ptr < l.string.length then
    .ok (l.string.get ⟨l.ptr, h⟩, l.advance)
  else
    .error .unexpectedEOS

/-- Restoration `LexerState._apply`: a snapshot holds only `ptr`, `line`
and `character`; the indentation stack of the current state is kept. -/
def Lexer.restoreTo (cur saved : Lexer) : Lexer :=
  { cur with ptr := saved.ptr, line := saved.line, character := saved.character }

/-- Blank-line lookahead loop of `Lexer.next` (lines 119-125): repeatedly
`_next`; a non-space character stops with `empty_line = False`, a newline
stops with `empty_line = True`, other whitespace continues. -/
def blankLoop : Nat → Lexer → Except LexErr (Bool × Lexer)
  | 0, _ => .error .outOfFuel
  | fuel + 1, l =>
    match l._next with
    | .error e => .error e
    | .ok (c2, l1) =>
      if ¬ pyIsSpace c2 then .ok (false, l1)
      else if c2 = '\n' then .ok (true, l1)
      else blankLoop fuel l1

/-- Loop shape `while self.ptr < self.length: if not p(s[ptr]): break;
self._next()` used for the whitespace, comment, integer and identifier
runs. -/
def scanWhile (p : Char → Bool) : Nat → Lexer → Lexer
  | 0, l => l
  | fuel + 1, l =>
    if h : l.ptr < l.string.length then
      if p (l.string.get ⟨l.ptr, h⟩) then scanWhile p fuel l.advance
      else l
    else l

/-- String-literal loop of `Lexer.next` (lines 203-211): a backslash
unconditionally consumes the following character, the opening quote
character terminates, an unescaped newline fails, anything else continues. -/
def stringLoop (quote : Char) (spanBegin : Pos) : Nat → Lexer → Except LexErr Lexer
  | 0, _ => .error .outOfFuel
  | fuel + 1, l =>
    match l._next with
    | .error e => .error e
    | .ok (c, l1) =>
      if c = '\\' then
        match l1._next with
        | .error e => .error e
        | .ok (_, l2) => stringLoop quote spanBegin fuel l2
      else if c = quote then .ok l1
      else if c = '\n' then
        .error (.fail "Unexpected end of line while scanning string literal"
          (spanBegin, ⟨l1.line, l1.character⟩))
      else stringLoop quote spanBegin fuel l1

/-- Outcome of the `zip_longest` comparison of old and new indentation
(lines 150-160): `push` when the old run is exhausted first (emit Indent),
`pop` when the new run is exhausted first (emit Dedent), `diverge` on a
character mismatch (fail), `equal` when the loop completes. -/
inductive IndentCmp where
  | push
  | pop
  | diverge
  | equal
deriving DecidableEq, Repr

/-- Comparison loop over `zip_longest(old_indent, new_indent)` checking
`old is None`, then `new is None`, then `old != new`, in that order. -/
def compareIndents : List Char → List Char → IndentCmp
  | [], [] => .equal
  | [], _ :: _ => .push
  | _ :: _, [] => .pop
  | o :: os, n :: ns => if o = n then compareIndents os ns else .diverge

/-- Token-assembler part of `Lexer.next` (lines 162-229): skip horizontal
whitespace, then dispatch on the current character to scan a comment,
integer, identifier, string, newline or symbol token. -/
def Lexer.scanBody (l : Lexer) : Except LexErr (Token × Lexer) :=
  let l1 := scanWhile isHWS l.string.length l
  if h : l1.ptr < l1.string.length then
    let c := l1.string.get ⟨l1.ptr, h⟩
    if c = '#' then
      let spanBegin : Pos := ⟨l1.line, l1.character⟩
      let b := l1.ptr
      let l2 := scanWhile (fun ch => !(ch == '\r' || ch == '\n')) l1.string.length l1
      .ok (⟨.Comment, strSlice l2.string b l2.ptr, (spanBegin, ⟨l2.line, l2.character⟩)⟩, l2)
    else if c.isDigit then
      let spanBegin : Pos := ⟨l1.line, l1.character⟩
      let b := l1.ptr
      let l2 := scanWhile Char.isDigit l1.string.length l1
      .ok (⟨.Integer, strSlice l2.string b l2.ptr, (spanBegin, ⟨l2.line, l2.character⟩)⟩, l2)
    else if isIdentStart c then
      let spanBegin : Pos := ⟨l1.line, l1.character⟩
      let b := l1.ptr
      let l2 := scanWhile isIdentCont l1.string.length l1
      .ok (⟨.Identifier, strSlice l2.string b l2.ptr, (spanBegin, ⟨l2.line, l2.character⟩)⟩, l2)
    else if c = '"' ∨ c = Char.ofNat 39 then
      let spanBegin : Pos := ⟨l1.line, l1.character⟩
      let b := l1.ptr
      match stringLoop c spanBegin (l1.string.length - l1.ptr + 1) l1.advance with
      | .error e => .error e
      | .ok l2 =>
        .ok (⟨.String, strSlice l2.string b l2.ptr, (spanBegin, ⟨l2.line, l2.character⟩)⟩, l2)
    else if c = '\r' ∨ c = '\n' then
      let spanBegin : Pos := ⟨l1.line, l1.character⟩
      let b := l1.ptr
      match l1._next with
      | .error e => .error e
      | .ok (c1, la) =>
        if c1 = '\r' then
          match la._next with
          | .error e => .error e
          | .ok (c2, lb) =>
            if c2 = '\n' then
              .ok (⟨.Newline, strSlice lb.string b lb.ptr, (spanBegin, ⟨lb.line, lb.character⟩)⟩, lb)
            else .error .assertErr
        else
          .ok (⟨.Newline, strSlice la.string b la.ptr, (spanBegin, ⟨la.line, la.character⟩)⟩, la)
    else if pyIsSpace c then
      .error .assertErr
    else
      let spanBegin : Pos := ⟨l1.line, l1.character⟩
      match l1._next with
      | .error e => .error e
      | .ok (c1, la) =>
        .ok (⟨.Symbol, [c1], (spanBegin, ⟨la.line, la.character⟩)⟩, la)
  else
    .error .indexError

/-- Method `Lexer.next` (lines 100-229): end-of-input dedent draining and
EndOfStream, blank-line lookahead, column-zero dedent, measured-indentation
comparison, then ordinary token scanning via `scanBody`. -/
def Lexer.next (l : Lexer) : Except LexErr (Token × Lexer) :=
  if _h0 : l.string.length ≤ l.ptr then
    let spanEnd : Pos := ⟨l.line, l.character⟩
    if 1 < l.indentations.length then
      let inds := l.indentations.tail
      .ok (⟨.Dedent, inds.headI, (spanEnd, spanEnd)⟩, { l with indentations := inds })
    else
      .ok (⟨.EndOfStream, [], (spanEnd, spanEnd)⟩, l)
  else
    let c := l.string.get ⟨l.ptr, by omega⟩
    if l.character = 0 then
      match blankLoop (l.string.length - l.ptr + 1) l with
      | .error e => .error e
      | .ok (emptyLine, l1) =>
        if emptyLine then
          .ok (⟨.Newline, strSlice l1.string l.ptr l1.ptr,
            (⟨l.line, l.character⟩, ⟨l1.line, l1.character⟩)⟩, l1)
        else
          let lr := l1.restoreTo l
          if ¬ isHWS c then
            if 1 < lr.indentations.length then
              let inds := lr.indentations.tail
              let spanEnd : Pos := ⟨lr.line, lr.character⟩
              .ok (⟨.Dedent, inds.headI, (spanEnd, spanEnd)⟩, { lr with indentations := inds })
            else
              lr.scanBody
          else
            let spanBegin : Pos := ⟨lr.line, lr.character⟩
            let b := lr.ptr
            let l2 := scanWhile isHWS lr.string.length lr
            let spanEnd : Pos := ⟨l2.line, l2.character⟩
            if h2 : l2.ptr < l2.string.length then
              if l2.string.get ⟨l2.ptr, h2⟩ ≠ '#' then
                let oldIndent := l2.indentations.headI
                let newIndent := strSlice l2.string b l2.ptr
                match compareIndents oldIndent newIndent with
                | .push =>
                  .ok (⟨.Indent, newIndent, (spanBegin, spanEnd)⟩,
                    { l2 with indentations := newIndent :: l2.indentations })
                | .pop =>
                  .ok (⟨.Dedent, newIndent, (spanBegin, spanEnd)⟩,
                    { l2 with indentations := l2.indentations.tail })
                | .diverge =>
                  .error (.fail "Inconsistent use of tabs and spaces in indentation"
                    (spanBegin, spanEnd))
                | .equal => l2.scanBody
              else
                l2.scanBody
            else
              .error .indexError
    else
      l.scanBody

/-- Sequence of `n` calls to `next`, collecting the tokens produced, or the
first error raised. -/
def Lexer.runN : Nat → Lexer → Except LexErr (List Token × Lexer)
  | 0, l => .ok ([], l)
  | n + 1, l =>
    match l.next with
    | .error e => .error e
    | .ok (t, l1) =>
      match Lexer.runN n l1 with
      | .error e => .error e
      | .ok (ts, l2) => .ok (t :: ts, l2)

/-- Loop body of `Lexer.peek`: `offset` discarded calls to `next` followed
by the call whose token is returned. -/
def Lexer.peekLoop : Nat → Lexer → Except LexErr (Token × Lexer)
  | 0, l => l.next
  | n + 1, l =>
    match l.next with
    | .error e => .error e
    | .ok (_, l1) => Lexer.peekLoop n l1

/-- Method `Lexer.peek(offset)`: under a `peeking()` snapshot, call `next`
`offset + 1` times and return the last token; the snapshot restoration
puts back `ptr`, `line` and `character` only, so whatever the calls did to
the indentation stack persists. -/
def Lexer.peek (l : Lexer) (offset : Nat) : Except LexErr (Token × Lexer) :=
  match Lexer.peekLoop offset l with
  | .error e => .error e
  | .ok (t, l1) => .ok (t, l1.restoreTo l)

/-- Proper-extension order on indentation strings: the first is a prefix of
the second and differs from it. -/
def StrictPref (a b : List Char) : Prop :=
  a.isPrefixOf b = true ∧ a ≠ b

instance : DecidableRel StrictPref := fun a b => by
  unfold StrictPref; infer_instance

/-- Invariant of the indentation stack (top at the head): non-empty, the
bottom entry is the empty string, and every entry strictly extends the
entry below it. -/
def IndentInvariant (s : List (List Char)) : Prop :=
  s ≠ [] ∧ s.getLast? = some [] ∧ List.Chain' (fun a b => StrictPref b a) s

instance : DecidablePred IndentInvariant := fun s => by
  unfold IndentInvariant
  exact instDecidableAnd

/-- Index of the first position at which two character runs differ (the
divergence point of the indentation comparison); 0 when one run is a
prefix of the other. -/
def firstDiffIdx : List Char → List Char → Nat
  | o :: os, n :: ns => if o = n then firstDiffIdx os ns + 1 else 0
  | _, _ => 0

/-- Predicted end-of-input tail of the token stream: one Dedent per stack
entry above the base level (value: the entry uncovered by the pop), then
`m` EndOfStream tokens, all with a zero-width span at the final position. -/
def eosDrain (l : Lexer) (m : Nat) : List Token :=
  let p : Pos := ⟨l.line, l.character⟩
  ((List.range (l.indentations.length - 1)).map fun k =>
    ⟨.Dedent, (l.indentations.drop (k + 1)).headI, (p, p)⟩)
  ++ List.replicate m ⟨.EndOfStream, [], (p, p)⟩

/-- The cursor update never changes the input text. -/
theorem Lexer.advance_string (l : Lexer) : l.advance.string = l.string := by
  unfold Lexer.advance
  split
  · split <;> rfl
  · rfl

/-- The cursor update never changes the indentation stack. -/
theorem Lexer.advance_indentations (l : Lexer) :
    l.advance.indentations = l.indentations := by
  unfold Lexer.advance
  split
  · split <;> rfl
  · rfl

/-- Away from the end of input the cursor update moves one character. -/
theorem Lexer.advance_ptr (l : Lexer) (h : l.ptr < l.string.length) :
    l.advance.ptr = l.ptr + 1 := by
  unfold Lexer.advance
  rw [dif_pos h]
  split <;> rfl

/-- Away from the end of input `_next` returns the current character and
the advanced state. -/
theorem Lexer._next_eq_ok (l : Lexer) (h : l.ptr < l.string.length) :
    l._next = .ok (l.string.get ⟨l.ptr, h⟩, l.advance) := by
  unfold Lexer._next
  rw [dif_pos h]

/-- At the end of input `_next` fails. -/
theorem Lexer._next_eq_error (l : Lexer) (h : ¬ l.ptr < l.string.length) :
    l._next = .error .unexpectedEOS := by
  unfold Lexer._next
  rw [dif_neg h]

/-- Facts recovered from a successful `_next`: the cursor was in range, the
text and the indentation stack are untouched, the cursor moved by one. -/
theorem Lexer._next_ok_facts {l l1 : Lexer} {c : Char}
    (h : l._next = .ok (c, l1)) :
    l.ptr < l.string.length ∧ l1.string = l.string ∧
      l1.indentations = l.indentations ∧ l1.ptr = l.ptr + 1 := by
  unfold Lexer._next at h
  split at h
  · rename_i hlt
    simp only [Except.ok.injEq, Prod.mk.injEq] at h
    obtain ⟨-, rfl⟩ := h
    exact ⟨hlt, l.advance_string, l.advance_indentations, l.advance_ptr hlt⟩
  · cases h

/-- The whitespace-run style loops never change the input text. -/
theorem scanWhile_string (p : Char → Bool) (fuel : Nat) (l : Lexer) :
    (scanWhile p fuel l).string = l.string := by
  induction fuel generalizing l with
  | zero => rfl
  | succ n ih =>
    unfold scanWhile
    split
    · split
      · rw [ih, Lexer.advance_string]
      · rfl
    · rfl

/-- The whitespace-run style loops never change the indentation stack. -/
theorem scanWhile_indentations (p : Char → Bool) (fuel : Nat) (l : Lexer) :
    (scanWhile p fuel l).indentations = l.indentations := by
  induction fuel generalizing l with
  | zero => rfl
  | succ n ih =>
    unfold scanWhile
    split
    · split
      · rw [ih, Lexer.advance_indentations]
      · rfl
    · rfl

/-- A scan loop whose continue-predicate rejects the current character
stops at once. -/
theorem scanWhile_stop {p : Char → Bool} {l : Lexer} (fuel : Nat)
    (h : l.ptr < l.string.length) (hp : p (l.string.get ⟨l.ptr, h⟩) = false) :
    scanWhile p fuel l = l := by
  cases fuel with
  | zero => rfl
  | succ n =>
    unfold scanWhile
    rw [dif_pos h, hp]
    simp

/-- The blank-line lookahead loop never changes the input text or the
indentation stack. -/
theorem blankLoop_ok_facts {fuel : Nat} {l l1 : Lexer} {b : Bool}
    (h : blankLoop fuel l = .ok (b, l1)) :
    l1.string = l.string ∧ l1.indentations = l.indentations := by
  induction fuel generalizing l with
  | zero => cases h
  | succ n ih =>
    unfold blankLoop at h
    split at h
    · cases h
    · rename_i c2 la heq
      obtain ⟨-, hs, hi, -⟩ := Lexer._next_ok_facts heq
      split at h
      · simp only [Except.ok.injEq, Prod.mk.injEq] at h
        obtain ⟨-, rfl⟩ := h
        exact ⟨hs, hi⟩
      · split at h
        · simp only [Except.ok.injEq, Prod.mk.injEq] at h
          obtain ⟨-, rfl⟩ := h
          exact ⟨hs, hi⟩
        · obtain ⟨h1, h2⟩ := ih h
          exact ⟨h1.trans hs, h2.trans hi⟩

/-- The string-literal loop never changes the input text or the
indentation stack. -/
theorem stringLoop_ok_facts {quote : Char} {sb : Pos} {fuel : Nat} {l l1 : Lexer}
    (h : stringLoop quote sb fuel l = .ok l1) :
    l1.string = l.string ∧ l1.indentations = l.indentations := by
  induction fuel generalizing l with
  | zero => cases h
  | succ n ih =>
    unfold stringLoop at h
    split at h
    · cases h
    · rename_i c la heq
      obtain ⟨-, hs, hi, -⟩ := Lexer._next_ok_facts heq
      split at h
      · split at h
        · cases h
        · rename_i c2 lb heq2
          obtain ⟨-, hs2, hi2, -⟩ := Lexer._next_ok_facts heq2
          obtain ⟨h1, h2⟩ := ih h
          exact ⟨(h1.trans hs2).trans hs, (h2.trans hi2).trans hi⟩
      · split at h
        · simp only [Except.ok.injEq] at h
          subst h
          exact ⟨hs, hi⟩
        · split at h
          · cases h
          · obtain ⟨h1, h2⟩ := ih h
            exact ⟨h1.trans hs, h2.trans hi⟩

/-- The token assembler never changes the input text or the indentation
stack. -/
theorem Lexer.scanBody_ok_facts {l : Lexer} {t : Token} {l1 : Lexer}
    (h : l.scanBody = .ok (t, l1)) :
    l1.string = l.string ∧ l1.indentations = l.indentations := by
  simp only [Lexer.scanBody] at h
  split at h
  · rename_i h1
    split at h
    · simp only [Except.ok.injEq, Prod.mk.injEq] at h
      obtain ⟨-, rfl⟩ := h
      constructor
      · rw [scanWhile_string, scanWhile_string]
      · rw [scanWhile_indentations, scanWhile_indentations]
    · split at h
      · simp only [Except.ok.injEq, Prod.mk.injEq] at h
        obtain ⟨-, rfl⟩ := h
        constructor
        · rw [scanWhile_string, scanWhile_string]
        · rw [scanWhile_indentations, scanWhile_indentations]
      · split at h
        · simp only [Except.ok.injEq, Prod.mk.injEq] at h
          obtain ⟨-, rfl⟩ := h
          constructor
          · rw [scanWhile_string, scanWhile_string]
          · rw [scanWhile_indentations, scanWhile_indentations]
        · split at h
          · split at h
            · cases h
            · rename_i l2 heq
              simp only [Except.ok.injEq, Prod.mk.injEq] at h
              obtain ⟨-, rfl⟩ := h
              obtain ⟨hs, hi⟩ := stringLoop_ok_facts heq
              constructor
              · rw [hs, Lexer.advance_string, scanWhile_string]
              · rw [hi, Lexer.advance_indentations, scanWhile_indentations]
          · split at h
            · split at h
              · cases h
              · rename_i c1 la heq
                obtain ⟨-, hs, hi, -⟩ := Lexer._next_ok_facts heq
                split at h
                · split at h
                  · cases h
                  · rename_i c2 lb heq2
                    obtain ⟨-, hs2, hi2, -⟩ := Lexer._next_ok_facts heq2
                    split at h
                    · simp only [Except.ok.injEq, Prod.mk.injEq] at h
                      obtain ⟨-, rfl⟩ := h
                      constructor
                      · rw [hs2, hs, scanWhile_string]
                      · rw [hi2, hi, scanWhile_indentations]
                    · cases h
                · simp only [Except.ok.injEq, Prod.mk.injEq] at h
                  obtain ⟨-, rfl⟩ := h
                  constructor
                  · rw [hs, scanWhile_string]
                  · rw [hi, scanWhile_indentations]
            · split at h
              · cases h
              · split at h
                · cases h
                · rename_i c1 la heq
                  obtain ⟨-, hs, hi, -⟩ := Lexer._next_ok_facts heq
                  simp only [Except.ok.injEq, Prod.mk.injEq] at h
                  obtain ⟨-, rfl⟩ := h
                  constructor
                  · rw [hs, scanWhile_string]
                  · rw [hi, scanWhile_indentations]
  · cases h

/-- Comparison outcome `push` means the old run is a proper prefix of the
new one. -/
theorem compareIndents_push {a b : List Char}
    (h : compareIndents a b = .push) : StrictPref a b := by
  induction a generalizing b with
  | nil =>
    cases b with
    | nil => cases h
    | cons n ns => exact ⟨rfl, by simp⟩
  | cons o os ih =>
    cases b with
    | nil => cases h
    | cons n ns =>
      unfold compareIndents at h
      split at h
      · rename_i he
        subst he
        obtain ⟨h1, h2⟩ := ih h
        refine ⟨?_, by simpa using h2⟩
        simpa [List.isPrefixOf] using h1
      · cases h

/-- Comparison outcome `pop` forces a non-empty old run. -/
theorem compareIndents_pop_ne_nil {a b : List Char}
    (h : compareIndents a b = .pop) : a ≠ [] := by
  intro rfla
  subst rfla
  cases b <;> cases h

/-- Popping the top of a stack of depth at least two keeps the invariant. -/
theorem IndentInvariant.tail_cons {a b : List Char} {r : List (List Char)}
    (h : IndentInvariant (a :: b :: r)) : IndentInvariant (b :: r) := by
  obtain ⟨-, hlast, hchain⟩ := h
  refine ⟨by simp, ?_, (List.chain'_cons.mp hchain).2⟩
  simpa using hlast

/-- Pushing a strict extension of the current top keeps the invariant. -/
theorem IndentInvariant.push {s : List (List Char)} {new : List Char}
    (h : IndentInvariant s) (hp : StrictPref s.headI new) :
    IndentInvariant (new :: s) := by
  obtain ⟨hne, hlast, hchain⟩ := h
  cases s with
  | nil => exact absurd rfl hne
  | cons a t =>
    refine ⟨by simp, by simpa using hlast, List.chain'_cons.mpr ⟨hp, hchain⟩⟩

/-- Under the invariant a non-empty top entry sits above at least one more
entry. -/
theorem IndentInvariant.tail_ne_nil {s : List (List Char)}
    (h : IndentInvariant s) (hh : s.headI ≠ []) : s.tail ≠ [] := by
  obtain ⟨hne, hlast, -⟩ := h
  cases s with
  | nil => exact absurd rfl hne
  | cons a t =>
    cases t with
    | nil =>
      simp only [List.headI] at hh
      simp only [List.getLast?_singleton, Option.some.injEq] at hlast
      exact absurd hlast hh
    | cons b r => simp

/-- Popping the top of a stack whose remainder is non-empty keeps the
invariant. -/
theorem IndentInvariant.tail_of_ne {s : List (List Char)}
    (h : IndentInvariant s) (hne : s.tail ≠ []) : IndentInvariant s.tail := by
  cases s with
  | nil => exact absurd rfl hne
  | cons a t =>
    cases t with
    | nil => exact absurd rfl hne
    | cons b r => exact h.tail_cons

/-- Restoring a snapshot never changes the indentation stack of the
current state. -/
theorem Lexer.restoreTo_indentations (cur saved : Lexer) :
    (cur.restoreTo saved).indentations = cur.indentations := rfl

/-- Restoring a snapshot never changes the input text. -/
theorem Lexer.restoreTo_string (cur saved : Lexer) :
    (cur.restoreTo saved).string = cur.string := rfl

/-- Preservation of the indentation-stack invariant by one `next` call. -/
theorem Lexer.next_preserves_invariant {l : Lexer} {t : Token} {l' : Lexer}
    (h : l.next = .ok (t, l')) (hinv : IndentInvariant l.indentations) :
    IndentInvariant l'.indentations := by
  simp only [Lexer.next] at h
  split at h
  · split at h
    · rename_i hd
      simp only [Except.ok.injEq, Prod.mk.injEq] at h
      obtain ⟨-, rfl⟩ := h
      refine hinv.tail_of_ne ?_
      have : l.indentations.tail.length = l.indentations.length - 1 := l.indentations.length_tail
      intro hnil
      rw [hnil] at this
      simp only [List.length_nil] at this
      omega
    · simp only [Except.ok.injEq, Prod.mk.injEq] at h
      obtain ⟨-, rfl⟩ := h
      exact hinv
  · split at h
    · split at h
      · cases h
      · rename_i emptyLine l1 hb
        obtain ⟨-, hbi⟩ := blankLoop_ok_facts hb
        split at h
        · simp only [Except.ok.injEq, Prod.mk.injEq] at h
          obtain ⟨-, rfl⟩ := h
          rwa [hbi]
        · split at h
          · split at h
            · rename_i hd
              simp only [Except.ok.injEq, Prod.mk.injEq] at h
              obtain ⟨-, rfl⟩ := h
              simp only [Lexer.restoreTo_indentations, hbi] at hd ⊢
              refine hinv.tail_of_ne ?_
              have : l.indentations.tail.length = l.indentations.length - 1 :=
                l.indentations.length_tail
              intro hnil
              rw [hnil] at this
              simp only [List.length_nil] at this
              omega
            · obtain ⟨-, hi⟩ := Lexer.scanBody_ok_facts h
              rwa [hi, Lexer.restoreTo_indentations, hbi]
          · split at h
            · split at h
              · split at h
                · rename_i hcmp
                  simp only [Except.ok.injEq, Prod.mk.injEq] at h
                  obtain ⟨-, rfl⟩ := h
                  simp only [scanWhile_indentations, Lexer.restoreTo_indentations, hbi]
                    at hcmp ⊢
                  exact hinv.push (compareIndents_push hcmp)
                · rename_i hcmp
                  simp only [Except.ok.injEq, Prod.mk.injEq] at h
                  obtain ⟨-, rfl⟩ := h
                  simp only [scanWhile_indentations, Lexer.restoreTo_indentations, hbi]
                    at hcmp ⊢
                  refine hinv.tail_of_ne (hinv.tail_ne_nil ?_)
                  exact compareIndents_pop_ne_nil hcmp
                · cases h
                · obtain ⟨-, hi⟩ := Lexer.scanBody_ok_facts h
                  rw [hi, scanWhile_indentations, Lexer.restoreTo_indentations, hbi]
                  exact hinv
              · obtain ⟨-, hi⟩ := Lexer.scanBody_ok_facts h
                rw [hi, scanWhile_indentations, Lexer.restoreTo_indentations, hbi]
                exact hinv
            · cases h
    · obtain ⟨-, hi⟩ := Lexer.scanBody_ok_facts h
      rwa [hi]

/-- Decomposition of a cursor position whose remaining text starts with a
known character. -/
theorem get_of_drop_cons {s : List Char} {p : Nat} {c : Char} {rest : List Char}
    (h : s.drop p = c :: rest) :
    ∃ hlt : p < s.length, s.get ⟨p, hlt⟩ = c ∧ s.drop (p + 1) = rest := by
  have hlt : p < s.length := by
    by_contra hle
    rw [List.drop_eq_nil_of_le (by omega)] at h
    cases h
  have h2 := List.drop_eq_getElem_cons (l := s) (n := p) hlt
  rw [h] at h2
  simp only [List.cons.injEq] at h2
  exact ⟨hlt, by rw [List.get_eq_getElem]; exact h2.1.symm, h2.2.symm⟩

/-- A snapshot restoration whose current state kept the original text and
indentation stack is the identity. -/
theorem Lexer.restoreTo_self {l1 l : Lexer} (hs : l1.string = l.string)
    (hi : l1.indentations = l.indentations) : l1.restoreTo l = l := by
  cases l
  simp_all [Lexer.restoreTo]

/-- One unfolding step of the blank-line lookahead away from the end of
input. -/
theorem blankLoop_step {fuel : Nat} {l : Lexer} (hlt : l.ptr < l.string.length) :
    blankLoop (fuel + 1) l =
      (if ¬ pyIsSpace (l.string.get ⟨l.ptr, hlt⟩) then .ok (false, l.advance)
       else if l.string.get ⟨l.ptr, hlt⟩ = '\n' then .ok (true, l.advance)
       else blankLoop fuel l.advance) := by
  conv_lhs => unfold blankLoop
  rw [l._next_eq_ok hlt]

/-- One unfolding step of `runN` at a state whose `next` call is known. -/
theorem Lexer.runN_succ_ok {n : Nat} {l l1 : Lexer} {t : Token}
    (h : l.next = .ok (t, l1)) :
    Lexer.runN (n + 1) l =
      (match Lexer.runN n l1 with
       | .error e => .error e
       | .ok (ts, l2) => .ok (t :: ts, l2)) := by
  conv_lhs => unfold Lexer.runN
  rw [h]

/-- Computation of the blank-line lookahead on a blank line: whitespace
characters up to a newline are consumed together with the newline, and the
loop reports an empty line. -/
theorem blankLoop_blank {ws rest : List Char} {fuel : Nat} {l : Lexer}
    (hfuel : ws.length < fuel)
    (hdrop : l.string.drop l.ptr = ws ++ '\n' :: rest)
    (hws : ∀ c ∈ ws, pyIsSpace c ∧ c ≠ '\n') :
    blankLoop fuel l =
      .ok (true, { l with ptr := l.ptr + (ws.length + 1), line := l.line + 1, character := 0 }) := by
  induction ws generalizing fuel l with
  | nil =>
    obtain ⟨hlt, hget, hdrop1⟩ := get_of_drop_cons (by simpa using hdrop)
    cases fuel with
    | zero => omega
    | succ f =>
      rw [blankLoop_step hlt, hget]
      rw [if_neg (by decide), if_pos rfl]
      unfold Lexer.advance
      rw [dif_pos hlt, hget, if_pos rfl]
      simp
  | cons c ws' ih =>
    obtain ⟨hlt, hget, hdrop1⟩ := get_of_drop_cons (by simpa using hdrop)
    obtain ⟨hsp, hnn⟩ := hws c (by simp)
    cases fuel with
    | zero => simp at hfuel
    | succ f =>
      rw [blankLoop_step hlt, hget]
      rw [if_neg (by simp [hsp]), if_neg hnn]
      have hadv : l.advance = { l with ptr := l.ptr + 1, character := l.character + 1 } := by
        unfold Lexer.advance
        rw [dif_pos hlt, hget, if_neg hnn]
      rw [hadv, ih (by simp at hfuel ⊢; omega) (by simpa using hdrop1)
        (fun d hd => hws d (by simp [hd]))]
      simp only [Except.ok.injEq, Prod.mk.injEq, Lexer.mk.injEq, List.length_cons,
        true_and, and_true]
      omega

/-- Computation of the blank-line lookahead when only non-newline
whitespace remains to the end of input: the loop runs off the end and the
end-of-stream error of `_next` propagates. -/
theorem blankLoop_eos {ws : List Char} {fuel : Nat} {l : Lexer}
    (hfuel : ws.length < fuel)
    (hdrop : l.string.drop l.ptr = ws)
    (hws : ∀ c ∈ ws, pyIsSpace c ∧ c ≠ '\n') :
    blankLoop fuel l = .error .unexpectedEOS := by
  induction ws generalizing fuel l with
  | nil =>
    cases fuel with
    | zero => omega
    | succ f =>
      unfold blankLoop
      rw [l._next_eq_error (by
        have := congrArg List.length hdrop
        rw [List.length_drop] at this
        simp at this
        omega)]
  | cons c ws' ih =>
    obtain ⟨hlt, hget, hdrop1⟩ := get_of_drop_cons hdrop
    obtain ⟨hsp, hnn⟩ := hws c (by simp)
    cases fuel with
    | zero => simp at hfuel
    | succ f =>
      rw [blankLoop_step hlt, hget]
      rw [if_neg (by simp [hsp]), if_neg hnn]
      have hadv : l.advance = { l with ptr := l.ptr + 1, character := l.character + 1 } := by
        unfold Lexer.advance
        rw [dif_pos hlt, hget, if_neg hnn]
      rw [hadv]
      exact ih (by simp at hfuel ⊢; omega) (by simpa using hdrop1)
        (fun d hd => hws d (by simp [hd]))

/-- End-of-input behaviour of `next` while the stack is deeper than the
base level: pop one entry, return a Dedent valued at the uncovered entry,
with a zero-width span at the current (final) position. -/
theorem Lexer.next_at_end_dedent {l : Lexer} (h : l.string.length ≤ l.ptr)
    (hd : 1 < l.indentations.length) :
    l.next = .ok (⟨.Dedent, l.indentations.tail.headI,
      (⟨l.line, l.character⟩, ⟨l.line, l.character⟩)⟩,
      { l with indentations := l.indentations.tail }) := by
  simp only [Lexer.next]
  rw [dif_pos h, if_pos hd]

/-- End-of-input behaviour of `next` once the stack is fully drained:
return EndOfStream with a zero-width span and leave the state untouched. -/
theorem Lexer.next_at_end_eos {l : Lexer} (h : l.string.length ≤ l.ptr)
    (hd : ¬ 1 < l.indentations.length) :
    l.next = .ok (⟨.EndOfStream, [],
      (⟨l.line, l.character⟩, ⟨l.line, l.character⟩)⟩, l) := by
  simp only [Lexer.next]
  rw [dif_pos h, if_neg hd]

/-- Once drained, every further call returns EndOfStream and the state
never changes again. -/
theorem Lexer.runN_eos {l : Lexer} (h : l.string.length ≤ l.ptr)
    (hd : ¬ 1 < l.indentations.length) (m : Nat) :
    Lexer.runN m l = .ok (List.replicate m
      ⟨.EndOfStream, [], (⟨l.line, l.character⟩, ⟨l.line, l.character⟩)⟩, l) := by
  induction m with
  | zero => rfl
  | succ n ih =>
    rw [Lexer.runN_succ_ok (Lexer.next_at_end_eos h hd), ih]
    rfl

/-- Draining lemma: from a state at the end of input with stack depth
`d1 + 1`, the next `d1 + m` calls produce the `eosDrain` tail (one Dedent
per level above the base, then `m` EndOfStream tokens). -/
theorem Lexer.runN_drain_aux {d1 : Nat} {l : Lexer} (h : l.string.length ≤ l.ptr)
    (hd : l.indentations.length = d1 + 1) (m : Nat) :
    Lexer.runN (d1 + m) l =
      .ok (eosDrain l m, { l with indentations := l.indentations.drop d1 }) := by
  induction d1 generalizing l with
  | zero =>
    rw [Nat.zero_add, Lexer.runN_eos h (by omega) m]
    simp [eosDrain, hd]
  | succ n ih =>
    rw [Nat.succ_add, Lexer.runN_succ_ok (Lexer.next_at_end_dedent h (by omega))]
    have hd2 : l.indentations.tail.length = n + 1 := by
      rw [List.length_tail]
      omega
    rw [ih (l := { l with indentations := l.indentations.tail }) h hd2]
    simp only [Except.ok.injEq, Prod.mk.injEq]
    constructor
    · show _ :: eosDrain { l with indentations := l.indentations.tail } m = eosDrain l m
      simp only [eosDrain, hd, List.length_tail]
      rw [show n + 2 - 1 = n + 1 from rfl, show n + 1 - 1 = n from rfl,
        List.range_succ_eq_map, List.map_cons, List.map_map]
      refine congrArg₂ _ (by rw [List.drop_one]) ?_
      refine congrArg₂ _ ?_ rfl
      apply List.map_congr_left
      intro k _
      simp only [Function.comp_apply]
      rw [← List.drop_one l.indentations, List.drop_drop,
        show (1 : Nat) + (k + 1) = k.succ + 1 from by omega]
    · show ({ l with indentations := l.indentations.tail.drop n } : Lexer) = _
      rw [← List.drop_one l.indentations, List.drop_drop,
        show (1 : Nat) + n = n + 1 from by omega]

/-- C2: once the cursor is at the end of the input, each `next` call pops
exactly one indentation level and returns one Dedent while the stack depth
exceeds 1, so the stream tail is (final depth − 1) Dedent tokens followed
by EndOfStream repeated forever, all with zero-width spans at the final
position. -/
theorem claim_C2 {l : Lexer} (h : l.string.length ≤ l.ptr) :
    (∀ _hd : 1 < l.indentations.length,
      l.next = .ok (⟨.Dedent, l.indentations.tail.headI,
        (⟨l.line, l.character⟩, ⟨l.line, l.character⟩)⟩,
        { l with indentations := l.indentations.tail })) ∧
    (∀ m, Lexer.runN (l.indentations.length - 1 + m) l =
      .ok (eosDrain l m,
        { l with indentations := l.indentations.drop (l.indentations.length - 1) })) := by
  constructor
  · intro hd
    exact Lexer.next_at_end_dedent h hd
  · intro m
    cases hlen : l.indentations.length with
    | zero =>
      rw [show (0 : Nat) - 1 + m = m from by omega, Lexer.runN_eos h (by omega) m]
      simp [eosDrain, hlen]
    | succ d =>
      rw [show d + 1 - 1 + m = d + m from rfl, show d + 1 - 1 = d from rfl]
      exact Lexer.runN_drain_aux h hlen m

/-- Witness for C2 at the concrete at-end state with input "a", cursor 1
and indentation stack [" ", ""]: one Dedent draining the stack, then
EndOfStream twice. -/
theorem claim_C2_witness :
    (Lexer.next (⟨['a'], 1, 1, 1, [[' '], []]⟩ : Lexer) =
      .ok (⟨.Dedent, [], (⟨1, 1⟩, ⟨1, 1⟩)⟩, ⟨['a'], 1, 1, 1, [[]]⟩)) ∧
    (Lexer.runN 3 (⟨['a'], 1, 1, 1, [[' '], []]⟩ : Lexer) =
      .ok ([⟨.Dedent, [], (⟨1, 1⟩, ⟨1, 1⟩)⟩, ⟨.EndOfStream, [], (⟨1, 1⟩, ⟨1, 1⟩)⟩,
        ⟨.EndOfStream, [], (⟨1, 1⟩, ⟨1, 1⟩)⟩], ⟨['a'], 1, 1, 1, [[]]⟩)) := by
  have hmain := claim_C2 (l := ⟨['a'], 1, 1, 1, [[' '], []]⟩) (by decide)
  exact ⟨hmain.1 (by decide), hmain.2 2⟩

/-- C5: at the start of a blank line (only whitespace characters, then a
newline), `next` consumes through the terminator and returns exactly one
Newline token whose text is the whole blank line; the indentation stack is
untouched. -/
theorem claim_C5 {l : Lexer} {ws rest : List Char}
    (hchar : l.character = 0)
    (hdrop : l.string.drop l.ptr = ws ++ '\n' :: rest)
    (hws : ∀ c ∈ ws, pyIsSpace c ∧ c ≠ '\n') :
    l.next = .ok (⟨.Newline, ws ++ ['\n'], (⟨l.line, 0⟩, ⟨l.line + 1, 0⟩)⟩,
      { l with ptr := l.ptr + (ws.length + 1), line := l.line + 1, character := 0 }) := by
  have hlen := congrArg List.length hdrop
  rw [List.length_drop] at hlen
  simp only [List.length_append, List.length_cons] at hlen
  have hfuel : ws.length < l.string.length - l.ptr + 1 := by omega
  have hb := blankLoop_blank hfuel hdrop hws
  have hval : strSlice l.string l.ptr (l.ptr + (ws.length + 1)) = ws ++ ['\n'] := by
    unfold strSlice
    rw [Nat.add_sub_cancel_left, hdrop,
      show ws ++ '\n' :: rest = (ws ++ ['\n']) ++ rest by simp,
      show ws.length + 1 = (ws ++ ['\n']).length by simp]
    exact List.take_left _ _
  simp only [Lexer.next]
  rw [dif_neg (by omega : ¬ l.string.length ≤ l.ptr)]
  simp only [hchar, hb]
  simp [hval]

/-- Witness for C5 on the input " \nb" at its initial state: the blank
first line " \n" is returned as one Newline token. -/
theorem claim_C5_witness :
    Lexer.next (Lexer.init " \nb") =
      .ok (⟨.Newline, [' ', '\n'], (⟨1, 0⟩, ⟨2, 0⟩)⟩, ⟨(" \nb").toList, 2, 2, 0, [[]]⟩) :=
  @claim_C5 (Lexer.init " \nb") [' '] ['b'] rfl (by decide) (by decide)

/-- C8: tokenizing "a\n  b\n" yields exactly Identifier "a", Newline "\n",
Indent "  ", Identifier "b", Newline "\n", Dedent "", EndOfStream. -/
theorem claim_C8 :
    (Lexer.runN 7 (Lexer.init "a\n  b\n")).map (fun p => p.1.map fun t => (t.type, t.value)) =
      .ok [(.Identifier, ['a']), (.Newline, ['\n']), (.Indent, [' ', ' ']),
        (.Identifier, ['b']), (.Newline, ['\n']), (.Dedent, []), (.EndOfStream, [])] := by
  rfl

/-- C9: the indentation stack starts as [""] and every normally returning
`next` call preserves the invariant that the stack is non-empty, its
bottom entry is "", and each entry strictly extends the entry below it. -/
theorem claim_C9 :
    (∀ s : String, (Lexer.init s).indentations = [[]] ∧
      IndentInvariant (Lexer.init s).indentations) ∧
    (∀ (l : Lexer) (t : Token) (l' : Lexer), l.next = .ok (t, l') →
      IndentInvariant l.indentations → IndentInvariant l'.indentations) := by
  refine ⟨fun s => ⟨rfl, ⟨by simp [Lexer.init], rfl, by simp [Lexer.init]⟩⟩, ?_⟩
  intro l t l' h hinv
  exact Lexer.next_preserves_invariant h hinv

/-- Witness for C9: the invariant propagated through the first `next` call
on the input "a". -/
theorem claim_C9_witness :
    IndentInvariant (⟨['a'], 1, 1, 1, [[]]⟩ : Lexer).indentations :=
  claim_C9.2 (Lexer.init "a") ⟨.Identifier, ['a'], (⟨1, 0⟩, ⟨1, 1⟩)⟩ _ (by rfl)
    (claim_C9.1 "a").2

/-- C10: at the start of a final line holding one or more whitespace
characters and nothing else (no newline before the end of input), `next`
raises the "Unexpected end of stream" error from inside the blank-line
lookahead instead of returning any token. -/
theorem claim_C10 {l : Lexer} {ws : List Char}
    (hchar : l.character = 0) (hne : ws ≠ [])
    (hdrop : l.string.drop l.ptr = ws)
    (hws : ∀ c ∈ ws, pyIsSpace c ∧ c ≠ '\n') :
    l.next = .error .unexpectedEOS := by
  have hlen := congrArg List.length hdrop
  rw [List.length_drop] at hlen
  have hpos : 0 < ws.length := List.length_pos.mpr hne
  have hfuel : ws.length < l.string.length - l.ptr + 1 := by omega
  have hb := blankLoop_eos hfuel hdrop hws
  simp only [Lexer.next]
  rw [dif_neg (by omega : ¬ l.string.length ≤ l.ptr)]
  simp only [hchar, hb]
  simp

/-- Witness for C10 at the start of the final line of "a\n  ": the lexer
fails with the end-of-stream error there. -/
theorem claim_C10_witness :
    Lexer.next (⟨("a\n  ").toList, 2, 2, 0, [[]]⟩ : Lexer) = .error .unexpectedEOS :=
  @claim_C10 ⟨("a\n  ").toList, 2, 2, 0, [[]]⟩ [' ', ' '] rfl (by decide) (by decide)
    (by decide)

/-- A successful `next` call never changes the input text. -/
theorem Lexer.next_ok_string {l : Lexer} {t : Token} {l' : Lexer}
    (h : l.next = .ok (t, l')) : l'.string = l.string := by
  simp only [Lexer.next] at h
  split at h
  · split at h <;>
    · simp only [Except.ok.injEq, Prod.mk.injEq] at h
      obtain ⟨-, rfl⟩ := h
      rfl
  · split at h
    · split at h
      · cases h
      · rename_i emptyLine l1 hb
        obtain ⟨hbs, -⟩ := blankLoop_ok_facts hb
        split at h
        · simp only [Except.ok.injEq, Prod.mk.injEq] at h
          obtain ⟨-, rfl⟩ := h
          exact hbs
        · split at h
          · split at h
            · simp only [Except.ok.injEq, Prod.mk.injEq] at h
              obtain ⟨-, rfl⟩ := h
              exact hbs
            · have := Lexer.scanBody_ok_facts h
              rw [this.1, Lexer.restoreTo_string, hbs]
          · split at h
            · split at h
              · split at h
                · simp only [Except.ok.injEq, Prod.mk.injEq] at h
                  obtain ⟨-, rfl⟩ := h
                  show (scanWhile _ _ _).string = _
                  rw [scanWhile_string, Lexer.restoreTo_string, hbs]
                · simp only [Except.ok.injEq, Prod.mk.injEq] at h
                  obtain ⟨-, rfl⟩ := h
                  show (scanWhile _ _ _).string = _
                  rw [scanWhile_string, Lexer.restoreTo_string, hbs]
                · cases h
                · have := Lexer.scanBody_ok_facts h
                  rw [this.1, scanWhile_string, Lexer.restoreTo_string, hbs]
              · have := Lexer.scanBody_ok_facts h
                rw [this.1, scanWhile_string, Lexer.restoreTo_string, hbs]
            · cases h
    · exact (Lexer.scanBody_ok_facts h).1

/-- C1 counterexample: from the state of "a\n  b\n" at the start of line 2
(reached by two real `next` calls), `peek 0` returns the Indent token but
leaves the pushed entry on the indentation stack; a second `peek 0` and a
real `next` both return the Identifier "b" token instead of the Indent the
first peek reported. -/
theorem claim_C1_counterexample :
    ((Lexer.runN 2 (Lexer.init "a\n  b\n")).map Prod.snd =
      .ok ⟨("a\n  b\n").toList, 2, 2, 0, [[]]⟩) ∧
    (Lexer.peek ⟨("a\n  b\n").toList, 2, 2, 0, [[]]⟩ 0 =
      .ok (⟨.Indent, [' ', ' '], (⟨2, 0⟩, ⟨2, 2⟩)⟩,
        ⟨("a\n  b\n").toList, 2, 2, 0, [[' ', ' '], []]⟩)) ∧
    (Lexer.peek ⟨("a\n  b\n").toList, 2, 2, 0, [[' ', ' '], []]⟩ 0 =
      .ok (⟨.Identifier, ['b'], (⟨2, 2⟩, ⟨2, 3⟩)⟩,
        ⟨("a\n  b\n").toList, 2, 2, 0, [[' ', ' '], []]⟩)) ∧
    (Lexer.next ⟨("a\n  b\n").toList, 2, 2, 0, [[' ', ' '], []]⟩ =
      .ok (⟨.Identifier, ['b'], (⟨2, 2⟩, ⟨2, 3⟩)⟩,
        ⟨("a\n  b\n").toList, 5, 2, 3, [[' ', ' '], []]⟩)) ∧
    ((⟨.Indent, [' ', ' '], (⟨2, 0⟩, ⟨2, 2⟩)⟩ : Token) ≠
      ⟨.Identifier, ['b'], (⟨2, 2⟩, ⟨2, 3⟩)⟩) ∧
    (([[' ', ' '], []] : List (List Char)) ≠ [[]]) :=
  ⟨rfl, rfl, rfl, rfl, by decide, by decide⟩

/-- C1 amended: `peek 0` restores only the cursor snapshot (`ptr`, `line`,
`character`); the input text is also unchanged, but the indentation stack
keeps whatever the peeked call did to it.  Whenever the peeked call leaves
the stack unchanged, the whole state is unchanged, a second `peek 0`
returns the identical token, and a real `next` returns exactly the token
the peek reported. -/
theorem claim_C1_amended {l : Lexer} {t : Token} {l' : Lexer}
    (h : l.peek 0 = .ok (t, l')) :
    (l'.ptr = l.ptr ∧ l'.line = l.line ∧ l'.character = l.character ∧
      l'.string = l.string) ∧
    (l'.indentations = l.indentations →
      l' = l ∧ l'.peek 0 = .ok (t, l') ∧ ∃ l1, l'.next = .ok (t, l1)) := by
  simp only [Lexer.peek, Lexer.peekLoop] at h
  cases hn : l.next with
  | error e => rw [hn] at h; cases h
  | ok p =>
    obtain ⟨t0, l1⟩ := p
    rw [hn] at h
    simp only [Except.ok.injEq, Prod.mk.injEq] at h
    obtain ⟨rfl, rfl⟩ := h
    have hstr : l1.string = l.string := Lexer.next_ok_string hn
    refine ⟨⟨rfl, rfl, rfl, hstr⟩, ?_⟩
    intro hi
    have hl : l1.restoreTo l = l := Lexer.restoreTo_self hstr hi
    rw [hl]
    refine ⟨rfl, ?_, ⟨l1, hn⟩⟩
    simp only [Lexer.peek, Lexer.peekLoop, hn, hl]

/-- Witness for the amended C1 at the initial state of "ab", where the
peeked Identifier token does not touch the stack: the peek restores the
state fully and a real `next` returns the same token. -/
theorem claim_C1_amended_witness :
    Lexer.init "ab" = Lexer.init "ab" ∧
    (Lexer.init "ab").peek 0 =
      .ok (⟨.Identifier, ['a', 'b'], (⟨1, 0⟩, ⟨1, 2⟩)⟩, Lexer.init "ab") ∧
    ∃ l1, (Lexer.init "ab").next =
      .ok (⟨.Identifier, ['a', 'b'], (⟨1, 0⟩, ⟨1, 2⟩)⟩, l1) :=
  (@claim_C1_amended (Lexer.init "ab") ⟨.Identifier, ['a', 'b'], (⟨1, 0⟩, ⟨1, 2⟩)⟩
    (Lexer.init "ab") (by rfl)).2 rfl

/-- Reduction of `next` to the measured-indentation comparison: at column 0
with a non-blank line that starts with horizontal whitespace, `next`
consumes the whitespace run and dispatches on the `zip_longest` comparison
of the top of the stack against the run (unless the run is followed by a
comment marker, in which case the comparison is skipped). -/
theorem Lexer.next_measured {l lb l2 : Lexer} {c c2 : Char} {rest rest2 : List Char}
    (hchar : l.character = 0)
    (hblank : blankLoop (l.string.length - l.ptr + 1) l = .ok (false, lb))
    (hdrop : l.string.drop l.ptr = c :: rest)
    (hc : isHWS c = true)
    (hscan : scanWhile isHWS l.string.length l = l2)
    (hdrop2 : l.string.drop l2.ptr = c2 :: rest2) :
    l.next =
      (if c2 ≠ '#' then
        match compareIndents l.indentations.headI (strSlice l.string l.ptr l2.ptr) with
        | .push => .ok (⟨.Indent, strSlice l.string l.ptr l2.ptr,
            (⟨l.line, 0⟩, ⟨l2.line, l2.character⟩)⟩,
            { l2 with indentations := strSlice l.string l.ptr l2.ptr :: l.indentations })
        | .pop => .ok (⟨.Dedent, strSlice l.string l.ptr l2.ptr,
            (⟨l.line, 0⟩, ⟨l2.line, l2.character⟩)⟩,
            { l2 with indentations := l.indentations.tail })
        | .diverge => .error (.fail "Inconsistent use of tabs and spaces in indentation"
            (⟨l.line, 0⟩, ⟨l2.line, l2.character⟩))
        | .equal => l2.scanBody
      else l2.scanBody) := by
  obtain ⟨hbs, hbi⟩ := blankLoop_ok_facts hblank
  have hlr : lb.restoreTo l = l := Lexer.restoreTo_self hbs hbi
  obtain ⟨hlt, hget, -⟩ := get_of_drop_cons hdrop
  have hs2 : l2.string = l.string := by rw [← hscan, scanWhile_string]
  have hi2 : l2.indentations = l.indentations := by rw [← hscan, scanWhile_indentations]
  have hdrop2x : l2.string.drop l2.ptr = c2 :: rest2 := by rw [hs2]; exact hdrop2
  obtain ⟨hlt2, hget2, -⟩ := get_of_drop_cons hdrop2x
  simp only [Lexer.next]
  rw [dif_neg (by omega : ¬ l.string.length ≤ l.ptr)]
  simp only [hchar, hblank]
  rw [if_neg Bool.false_ne_true, hlr]
  simp only [hget]
  have hno : ¬ (¬ isHWS c = true) := by simp [hc]
  rw [if_neg hno, hscan, dif_pos hlt2]
  simp only [hget2, hs2, hi2]
  simp only [hchar, if_true]

/-- C3 counterexample: tokenizing "a\n b\n   c\n  d" produces, at the
fourth line, a Dedent token whose value is the measured run "  " while the
new top of the stack after the pop is " " — the token value does not equal
the new top of the stack. -/
theorem claim_C3_counterexample :
    ((Lexer.runN 9 (Lexer.init "a\n b\n   c\n  d")).map
      (fun p => (p.1.map fun t => (t.type, t.value), p.2.indentations)) =
      .ok ([(.Identifier, ['a']), (.Newline, ['\n']), (.Indent, [' ']),
        (.Identifier, ['b']), (.Newline, ['\n']), (.Indent, [' ', ' ', ' ']),
        (.Identifier, ['c']), (.Newline, ['\n']), (.Dedent, [' ', ' '])],
        [[' '], []])) ∧
    ([' ', ' '] ≠ ([[' '], []] : List (List Char)).headI) :=
  ⟨rfl, by decide⟩

/-- C3 amended: in the measured-indentation comparison, when the new run is
a proper prefix of the old top of the stack, `next` pops exactly one level
and returns a Dedent token whose value is the measured whitespace run
itself (which coincides with the new top of the stack only when that top
equals the run). -/
theorem claim_C3_amended {l lb l2 : Lexer} {c c2 : Char} {rest rest2 : List Char}
    (hchar : l.character = 0)
    (hblank : blankLoop (l.string.length - l.ptr + 1) l = .ok (false, lb))
    (hdrop : l.string.drop l.ptr = c :: rest)
    (hc : isHWS c = true)
    (hscan : scanWhile isHWS l.string.length l = l2)
    (hdrop2 : l.string.drop l2.ptr = c2 :: rest2)
    (hc2 : c2 ≠ '#')
    (hcmp : compareIndents l.indentations.headI (strSlice l.string l.ptr l2.ptr) = .pop) :
    l.next = .ok (⟨.Dedent, strSlice l.string l.ptr l2.ptr,
      (⟨l.line, 0⟩, ⟨l2.line, l2.character⟩)⟩,
      { l2 with indentations := l.indentations.tail }) := by
  rw [Lexer.next_measured hchar hblank hdrop hc hscan hdrop2, if_pos hc2, hcmp]

/-- Witness for the amended C3 at a state whose stack is ["   ", " ", ""]
and whose line starts with the two-space run "  ": one level is popped and
the Dedent token carries the run "  ", not the new top " ". -/
theorem claim_C3_amended_witness :
    Lexer.next (⟨("  x").toList, 0, 1, 0, [[' ', ' ', ' '], [' '], []]⟩ : Lexer) =
      .ok (⟨.Dedent, [' ', ' '], (⟨1, 0⟩, ⟨1, 2⟩)⟩,
        ⟨("  x").toList, 2, 1, 2, [[' '], []]⟩) :=
  @claim_C3_amended ⟨("  x").toList, 0, 1, 0, [[' ', ' ', ' '], [' '], []]⟩
    ⟨("  x").toList, 3, 1, 3, [[' ', ' ', ' '], [' '], []]⟩
    ⟨("  x").toList, 2, 1, 2, [[' ', ' ', ' '], [' '], []]⟩
    ' ' 'x' [' ', 'x'] []
    rfl (by rfl) (by rfl) (by decide) (by rfl) (by rfl) (by decide) (by rfl)

/-- C4 counterexample: on "a\n\t b\n\t\tc" the third line diverges from the
stack top "\t " at index 1 (column 1), yet the raised error's span is the
whole whitespace run, from column 0 to column 2 — neither endpoint
identifies the first differing column. -/
theorem claim_C4_counterexample :
    (Lexer.runN 6 (Lexer.init "a\n\t b\n\t\tc") =
      .error (.fail "Inconsistent use of tabs and spaces in indentation"
        (⟨3, 0⟩, ⟨3, 2⟩))) ∧
    firstDiffIdx ['\t', ' '] ['\t', '\t'] = 1 ∧
    ((⟨3, 0⟩ : Pos).character ≠ 1 ∧ (⟨3, 2⟩ : Pos).character ≠ 1) :=
  ⟨rfl, rfl, by decide, by decide⟩

/-- C4 amended: when the new whitespace run and the stack top diverge at
some character, `next` raises the inconsistent-indentation error whose
span is that of the entire whitespace run (line start to end of run); the
divergence column itself is not part of the report. -/
theorem claim_C4_amended {l lb l2 : Lexer} {c c2 : Char} {rest rest2 : List Char}
    (hchar : l.character = 0)
    (hblank : blankLoop (l.string.length - l.ptr + 1) l = .ok (false, lb))
    (hdrop : l.string.drop l.ptr = c :: rest)
    (hc : isHWS c = true)
    (hscan : scanWhile isHWS l.string.length l = l2)
    (hdrop2 : l.string.drop l2.ptr = c2 :: rest2)
    (hc2 : c2 ≠ '#')
    (hcmp : compareIndents l.indentations.headI (strSlice l.string l.ptr l2.ptr) =
      .diverge) :
    l.next = .error (.fail "Inconsistent use of tabs and spaces in indentation"
      (⟨l.line, 0⟩, ⟨l2.line, l2.character⟩)) := by
  rw [Lexer.next_measured hchar hblank hdrop hc hscan hdrop2, if_pos hc2, hcmp]

/-- Witness for the amended C4 on the spec example "  a\n\tb": the
one-tab second line diverges from the two-space stack top at column 0, and
the error is raised with the run span from column 0 to column 1. -/
theorem claim_C4_amended_witness :
    Lexer.next (⟨("  a\n\tb").toList, 4, 2, 0, [[' ', ' '], []]⟩ : Lexer) =
      .error (.fail "Inconsistent use of tabs and spaces in indentation"
        (⟨2, 0⟩, ⟨2, 1⟩)) :=
  @claim_C4_amended ⟨("  a\n\tb").toList, 4, 2, 0, [[' ', ' '], []]⟩
    ⟨("  a\n\tb").toList, 6, 2, 2, [[' ', ' '], []]⟩
    ⟨("  a\n\tb").toList, 5, 2, 1, [[' ', ' '], []]⟩
    '\t' 'b' ['b'] []
    rfl (by rfl) (by rfl) (by decide) (by rfl) (by rfl) (by decide) (by rfl)

/-- C6 counterexample: on "a\n  b\n#c\n" the comment-only third line starts
at column 0 while the stack is ["  ", ""]; the `next` call at that line
returns a Dedent (not the Comment) and pops the stack, so a comment-only
line can alter the indentation stack. -/
theorem claim_C6_counterexample :
    ((Lexer.runN 5 (Lexer.init "a\n  b\n#c\n")).map Prod.snd =
      .ok ⟨("a\n  b\n#c\n").toList, 6, 3, 0, [[' ', ' '], []]⟩) ∧
    (Lexer.next ⟨("a\n  b\n#c\n").toList, 6, 3, 0, [[' ', ' '], []]⟩ =
      .ok (⟨.Dedent, [], (⟨3, 0⟩, ⟨3, 0⟩)⟩,
        ⟨("a\n  b\n#c\n").toList, 6, 3, 0, [[]]⟩)) ∧
    ((.Dedent : TokenType) ≠ .Comment) ∧
    (([[' ', ' '], []] : List (List Char)) ≠ [[]]) :=
  ⟨rfl, rfl, by decide, by decide⟩

/-- C6 amended: a comment-only line whose leading whitespace run is
non-empty skips the indentation comparison entirely: `next` returns the
Comment token (from the marker to the line end) and the indentation stack
is unchanged.  A comment marker at column 0 is instead handled by the
column-zero dedent rule first, and pops the stack one level per call while
its depth exceeds 1. -/
theorem claim_C6_amended {l lb l2 l3 : Lexer} {c : Char} {rest rest2 : List Char}
    (hchar : l.character = 0)
    (hblank : blankLoop (l.string.length - l.ptr + 1) l = .ok (false, lb))
    (hdrop : l.string.drop l.ptr = c :: rest)
    (hc : isHWS c = true)
    (hscan : scanWhile isHWS l.string.length l = l2)
    (hdrop2 : l.string.drop l2.ptr = '#' :: rest2)
    (hscan3 : scanWhile (fun ch => !(ch == '\r' || ch == '\n')) l.string.length l2 = l3) :
    l.next = .ok (⟨.Comment, strSlice l.string l2.ptr l3.ptr,
      (⟨l2.line, l2.character⟩, ⟨l3.line, l3.character⟩)⟩, l3) ∧
    l3.indentations = l.indentations := by
  have hs2 : l2.string = l.string := by rw [← hscan, scanWhile_string]
  have hi2 : l2.indentations = l.indentations := by rw [← hscan, scanWhile_indentations]
  have hdrop2x : l2.string.drop l2.ptr = '#' :: rest2 := by rw [hs2]; exact hdrop2
  obtain ⟨hlt2, hget2, -⟩ := get_of_drop_cons hdrop2x
  have hs3 : l3.string = l.string := by rw [← hscan3, scanWhile_string, hs2]
  have hi3 : l3.indentations = l.indentations := by
    rw [← hscan3, scanWhile_indentations, hi2]
  refine ⟨?_, hi3⟩
  rw [Lexer.next_measured hchar hblank hdrop hc hscan hdrop2,
    if_neg (by simp : ¬ ('#' ≠ '#'))]
  simp only [Lexer.scanBody]
  rw [scanWhile_stop l2.string.length hlt2 (by rw [hget2]; decide)]
  rw [dif_pos hlt2]
  simp only [hget2, if_pos rfl]
  rw [show l2.string.length = l.string.length from by rw [hs2], hscan3, hs3]
  simp only [if_true]

/-- Witness for the amended C6 at a line "  #c" under the stack
["  ", ""]: the comparison is skipped, the Comment token "#c" is returned
and the stack is unchanged. -/
theorem claim_C6_amended_witness :
    Lexer.next (⟨("  #c").toList, 0, 1, 0, [[' ', ' '], []]⟩ : Lexer) =
      .ok (⟨.Comment, ['#', 'c'], (⟨1, 2⟩, ⟨1, 4⟩)⟩,
        ⟨("  #c").toList, 4, 1, 4, [[' ', ' '], []]⟩) ∧
    ([[' ', ' '], []] : List (List Char)) = [[' ', ' '], []] :=
  have h := @claim_C6_amended ⟨("  #c").toList, 0, 1, 0, [[' ', ' '], []]⟩
    ⟨("  #c").toList, 3, 1, 3, [[' ', ' '], []]⟩
    ⟨("  #c").toList, 2, 1, 2, [[' ', ' '], []]⟩
    ⟨("  #c").toList, 4, 1, 4, [[' ', ' '], []]⟩
    ' ' [' ', '#', 'c'] ['c']
    rfl (by rfl) (by rfl) (by decide) (by rfl) (by rfl) (by rfl)
  ⟨h.1, h.2⟩

/-- One unfolding step of the string-literal loop away from the end of
input. -/
theorem stringLoop_step {quote : Char} {sb : Pos} {fuel : Nat} {l : Lexer}
    (hlt : l.ptr < l.string.length) :
    stringLoop quote sb (fuel + 1) l =
      (if l.string.get ⟨l.ptr, hlt⟩ = '\\' then
        match l.advance._next with
        | .error e => .error e
        | .ok (_, l2) => stringLoop quote sb fuel l2
      else if l.string.get ⟨l.ptr, hlt⟩ = quote then .ok l.advance
      else if l.string.get ⟨l.ptr, hlt⟩ = '\n' then
        .error (.fail "Unexpected end of line while scanning string literal"
          (sb, ⟨l.advance.line, l.advance.character⟩))
      else stringLoop quote sb fuel l.advance) := by
  conv_lhs => unfold stringLoop
  rw [l._next_eq_ok hlt]

/-- C7: in string-literal scanning a backslash unconditionally escapes the
following character (whatever it is, including a quote or a newline), an
unescaped newline before the closing quote raises the lexical error whose
span runs from the opening quote to the position after the newline, and on
success the String token's text includes both delimiters; in particular
the six-character input `"a\"b"` scans as one String token made of exactly
those six characters, an escaped newline inside a string is accepted, and
an unescaped one is rejected. -/
theorem claim_C7 :
    (∀ (quote : Char) (sb : Pos) (fuel : Nat) (l l1 l2 : Lexer) (c2 : Char),
      l._next = .ok ('\\', l1) → l1._next = .ok (c2, l2) →
      stringLoop quote sb (fuel + 1) l = stringLoop quote sb fuel l2) ∧
    (∀ (quote : Char) (sb : Pos) (fuel : Nat) (l l1 : Lexer),
      quote ≠ '\n' → l._next = .ok ('\n', l1) →
      stringLoop quote sb (fuel + 1) l =
        .error (.fail "Unexpected end of line while scanning string literal"
          (sb, ⟨l1.line, l1.character⟩))) ∧
    (Lexer.next (Lexer.init "\"a\\\"b\"") =
      .ok (⟨.String, ['"', 'a', '\\', '"', 'b', '"'], (⟨1, 0⟩, ⟨1, 6⟩)⟩,
        ⟨("\"a\\\"b\"").toList, 6, 1, 6, [[]]⟩)) ∧
    (Lexer.next (Lexer.init "\"a\\\nb\"") =
      .ok (⟨.String, ['"', 'a', '\\', '\n', 'b', '"'], (⟨1, 0⟩, ⟨2, 2⟩)⟩,
        ⟨("\"a\\\nb\"").toList, 6, 2, 2, [[]]⟩)) ∧
    (Lexer.next (Lexer.init "\"a\nb\"") =
      .error (.fail "Unexpected end of line while scanning string literal"
        (⟨1, 0⟩, ⟨2, 0⟩))) := by
  refine ⟨?_, ?_, rfl, rfl, rfl⟩
  · intro quote sb fuel l l1 l2 c2 h1 h2
    obtain ⟨hlt, -, -, -⟩ := Lexer._next_ok_facts h1
    rw [l._next_eq_ok hlt] at h1
    simp only [Except.ok.injEq, Prod.mk.injEq] at h1
    obtain ⟨hget, hadv⟩ := h1
    rw [stringLoop_step hlt, if_pos hget, hadv, h2]
  · intro quote sb fuel l l1 hq h1
    obtain ⟨hlt, -, -, -⟩ := Lexer._next_ok_facts h1
    rw [l._next_eq_ok hlt] at h1
    simp only [Except.ok.injEq, Prod.mk.injEq] at h1
    obtain ⟨hget, hadv⟩ := h1
    rw [stringLoop_step hlt, if_neg (by rw [hget]; decide),
      if_neg (by rw [hget]; exact fun h => hq h.symm), if_pos hget, hadv]

/-- Witness for C7: the escape step applied with an escaped quote inside a
double-quoted literal, and the newline error applied at a bare newline. -/
theorem claim_C7_witness :
    (stringLoop '"' ⟨1, 0⟩ 4 (⟨['\\', '"', '"'], 0, 1, 0, [[]]⟩ : Lexer) =
      stringLoop '"' ⟨1, 0⟩ 3 (⟨['\\', '"', '"'], 2, 1, 2, [[]]⟩ : Lexer)) ∧
    (stringLoop '"' ⟨1, 0⟩ 1 (⟨['\n'], 0, 1, 0, [[]]⟩ : Lexer) =
      .error (.fail "Unexpected end of line while scanning string literal"
        (⟨1, 0⟩, ⟨2, 0⟩))) :=
  ⟨claim_C7.1 '"' ⟨1, 0⟩ 3 ⟨['\\', '"', '"'], 0, 1, 0, [[]]⟩
      ⟨['\\', '"', '"'], 1, 1, 1, [[]]⟩ ⟨['\\', '"', '"'], 2, 1, 2, [[]]⟩ '"'
      (by rfl) (by rfl),
    claim_C7.2.1 '"' ⟨1, 0⟩ 0 ⟨['\n'], 0, 1, 0, [[]]⟩ ⟨['\n'], 1, 2, 0, [[]]⟩
      (by decide) (by rfl)⟩
